import Mathlib

/-!
Verification development for the nachos scheduler (scheduler.cc) and the
memory manager interface (addrspace.h).

The scheduler is embedded shallowly: the mutable `Scheduler` object of the
C++ code becomes an explicit state record `SchedState`, and each member
function becomes a Lean function from state to state (returning its C++
return value alongside).  Machine integers are modelled as `Int` (the C++
code uses `int` throughout, and none of these quantities approaches
overflow in the regime of the kernel).  Fatal assertions (`ASSERT`) are modelled
by an `Option` result: `none` is the aborted kernel.
-/

namespace Nachos

/-- Thread run status, as in thread.h (only the states the scheduler uses). -/
inductive ThreadStatus where
  | RUNNING
  | READY
  | BLOCKED
  deriving DecidableEq, Repr

/-- A thread, as seen by the scheduler: an identity (C++ threads are
distinguished by object address; we use a numeric id), plus the
`priority` and `burstTime` fields read through `getPriority` /
`getBurstTime`.  Status is tracked in the scheduler state, since the C++
code mutates it through `setStatus`. -/
structure Thread where
  id : Nat
  priority : Int
  burstTime : Int
  deriving DecidableEq, Repr

/-- scheduler.cc, SJFCompare: three-way comparison on remaining burst time. -/
def SJFCompare (a b : Thread) : Int :=
  if a.burstTime = b.burstTime then 0
  else if a.burstTime > b.burstTime then 1 else -1

/-- scheduler.cc, PriorityCompare: three-way comparison on priority value. -/
def PriorityCompare (a b : Thread) : Int :=
  if a.priority = b.priority then 0
  else if a.priority > b.priority then 1 else -1

/-- scheduler.h: the three ready-queue policies. -/
inductive SchedulerType where
  | FCFS
  | SJF
  | Priority
  deriving DecidableEq, Repr

/-- Modelled from the spec: `SortedList<Thread*>::Insert` (list.h is not part
of the given sources).  Spec 4.1: comparator-ordered insertion, ties broken
by insertion order (stable), so a new element goes after existing elements
that compare equal: it is inserted before the first element it compares
strictly less than. -/
def sortedInsert (cmp : Thread → Thread → Int) (t : Thread) :
    List Thread → List Thread
  | [] => [t]
  | x :: xs => if cmp t x < 0 then t :: x :: xs else x :: sortedInsert cmp t xs

/-- The effect of `readyList->Append` under the configured policy:
scheduler.cc constructs a plain `List` for FCFS (append at the back,
modelled from spec 4.1: FIFO is strict insertion order) and a `SortedList`
with the corresponding comparator for SJF / Priority. -/
def readyAppend (ty : SchedulerType) (t : Thread) (l : List Thread) :
    List Thread :=
  match ty with
  | .FCFS => l ++ [t]
  | .SJF => sortedInsert SJFCompare t l
  | .Priority => sortedInsert PriorityCompare t l

/-- A sleep-set entry: `typedef pair<Thread*, int> thread_clk` — the thread
and its absolute wake tick. -/
abbrev ThreadClk := Thread × Int

/-- The scheduler state: the fields of class `Scheduler`
(`schedulerType`, `readyList`, `sleepingList`, `current`, `toBeDestroyed`),
the kernel-wide `kernel->currentThread`, and the status field of every
thread (keyed by thread id, mutated via `setStatus`). -/
structure SchedState where
  schedulerType : SchedulerType
  readyList : List Thread
  sleepingList : List ThreadClk
  current : Int
  currentThread : Thread
  toBeDestroyed : Option Thread
  status : Nat → ThreadStatus

/-- scheduler.cc, Scheduler::ReadyToRun: set the thread status to READY
and append it to the ready list (ordering per policy). -/
def ReadyToRun (s : SchedState) (t : Thread) : SchedState :=
  { s with
    status := fun i => if i = t.id then .READY else s.status i
    readyList := readyAppend s.schedulerType t s.readyList }

/-- scheduler.cc, Scheduler::FindNextToRun: return NULL if the ready list
is empty, else remove and return its front. -/
def FindNextToRun (s : SchedState) : Option Thread × SchedState :=
  match s.readyList with
  | [] => (none, s)
  | x :: xs => (some x, { s with readyList := xs })

/-- Modelled from the spec: `Thread::Sleep` (thread.cc is not part of the
given sources).  Spec 4.2 on `FallAsleep`: "sets thread status to a
non-ready blocked state". -/
def Thread.Sleep (s : SchedState) (t : Thread) : SchedState :=
  { s with status := fun i => if i = t.id then .BLOCKED else s.status i }

/-- scheduler.cc, Scheduler::FallAsleep: push `(t, current + val)` onto the
back of the sleeping list, then `t->Sleep(false)`. -/
def FallAsleep (s : SchedState) (t : Thread) (val : Int) : SchedState :=
  Thread.Sleep
    { s with sleepingList := s.sleepingList ++ [(t, s.current + val)] } t

/-- The scan loop inside Scheduler::WakeUp: walk the sleeping list front to
back; an entry whose wake tick is `< cur` is woken (erased from the list,
collected in scan order), every other entry stays.  The C++ loop erases at
the current index without advancing, which visits the remaining entries in
order — exactly this structural recursion.  Returns (remaining list,
woken threads in scan order). -/
def wakeScan (cur : Int) : List ThreadClk → List ThreadClk × List Thread
  | [] => ([], [])
  | e :: rest =>
    let (rem, wok) := wakeScan cur rest
    if e.2 < cur then (rem, e.1 :: wok) else (e :: rem, wok)

/-- scheduler.cc, Scheduler::WakeUp: increment `current`, wake every
sleeping entry whose wake tick is `< current` by `ReadyToRun`, erase it
from the sleeping list, and return whether any thread was woken. -/
def WakeUp (s : SchedState) : Bool × SchedState :=
  let cur := s.current + 1
  let (rem, wok) := wakeScan cur s.sleepingList
  (!wok.isEmpty,
    wok.foldl ReadyToRun
      { s with current := cur, sleepingList := rem })

/-- Iterate `WakeUp` (discarding the boolean), for reasoning about repeated
timer ticks. -/
def wakeUpN : Nat → SchedState → SchedState
  | 0, s => s
  | n + 1, s => wakeUpN n (WakeUp s).2

/-- scheduler.cc, Scheduler::needYield: false when `readyList->GetFront()`
is NULL (GetFront modelled from spec 4.1: `PeekFront` returns the head
without removing it, or signals empty); otherwise FCFS never yields, and
SJF / Priority yield when the comparator ranks the running thread strictly
after the ready head. -/
def needYield (s : SchedState) : Bool :=
  match s.readyList.head? with
  | none => false
  | some next =>
    match s.schedulerType with
    | .FCFS => false
    | .SJF => SJFCompare s.currentThread next > 0
    | .Priority => PriorityCompare s.currentThread next > 0

/-- scheduler.cc, Scheduler::CheckToBeDestroyed: if a thread is pending
destruction, delete it and clear the slot. -/
def CheckToBeDestroyed (s : SchedState) : SchedState :=
  match s.toBeDestroyed with
  | none => s
  | some _ => { s with toBeDestroyed := none }

/-- The first half of scheduler.cc, Scheduler::Run, up to `SWITCH`: if
`finishing`, assert the destruction slot is free (`none` models the fatal
`ASSERT(toBeDestroyed == NULL)`) and park the outgoing thread there; then
make `nextThread` the current thread with status RUNNING.  (The
USER_PROGRAM state save and `CheckOverflow` touch only machine state
outside this model.) -/
def RunBeforeSwitch (s : SchedState) (nextThread : Thread)
    (finishing : Bool) : Option SchedState :=
  let oldThread := s.currentThread
  if finishing then
    match s.toBeDestroyed with
    | some _ => none
    | none =>
      some { s with
              toBeDestroyed := some oldThread
              currentThread := nextThread
              status := fun i =>
                if i = nextThread.id then .RUNNING else s.status i }
  else
    some { s with
            currentThread := nextThread
            status := fun i =>
              if i = nextThread.id then .RUNNING else s.status i }

/-- The second half of Scheduler::Run, after `SWITCH` returns control to
this thread: drain any pending deferred destruction.  (The USER_PROGRAM
state restore is outside this model.) -/
def RunAfterSwitch (s : SchedState) : SchedState :=
  CheckToBeDestroyed s

/-- scheduler.cc, Scheduler::Run, whole body: the pre-switch protocol, the
external `SWITCH` primitive (a no-op on scheduler state), then the
post-switch cleanup. -/
def Run (s : SchedState) (nextThread : Thread) (finishing : Bool) :
    Option SchedState :=
  (RunBeforeSwitch s nextThread finishing).map RunAfterSwitch

/-- addrspace.h, class FrameInfoEntry: per-frame (or per-swap-slot)
record.  The owning page table is identified by a numeric id (the C++
field is a `TranslationEntry*`). -/
structure FrameInfoEntry where
  valid : Bool
  lock : Bool
  pageTable : Nat
  vpn : Nat
  count : Nat
  deriving DecidableEq, Repr

/-- addrspace.h, class MemoryManager: the frame directory and the swap
directory (fields `frameTable`, `swapTable`). -/
structure MemoryManager where
  frameTable : List FrameInfoEntry
  swapTable : List FrameInfoEntry
  deriving DecidableEq, Repr

/-- Does entry `e` record page `vpn` of page table `pt`?  Used by the
directory scans below. -/
def FrameInfoEntry.holds (e : FrameInfoEntry) (pt : Nat) (vpn : Nat) :
    Bool :=
  e.valid && e.pageTable = pt && e.vpn = vpn

/-- Modelled from the spec: the directory lookup `Acquire` performs to
decide "restore from swap" vs "fresh load" (spec 4.3: "if the requested
page already has a reserved swap slot"); the body of `AcquirePage` is not part
of the given sources, only its declaration in addrspace.h. -/
def findSwapEntry (m : MemoryManager) (pt : Nat) (vpn : Nat) :
    Option FrameInfoEntry :=
  m.swapTable.find? (fun e => e.holds pt vpn)

/-- Modelled from the spec: the frame-directory lookup for a resident
page (spec 3: a valid Frame Directory Entry points at a (page table, vpn)
pair); the body of `AcquirePage` is not part of the given sources. -/
def findFrameEntry (m : MemoryManager) (pt : Nat) (vpn : Nat) :
    Option FrameInfoEntry :=
  m.frameTable.find? (fun e => e.holds pt vpn)

/-- Release one directory entry if it belongs to pages `0..num-1` of page
table `pt`: invalidate it, so no ownership field is meaningful any more. -/
def releaseEntry (pt : Nat) (num : Nat) (e : FrameInfoEntry) :
    FrameInfoEntry :=
  if e.valid && e.pageTable = pt && e.vpn < num then
    { e with valid := false }
  else e

/-- Modelled from the spec: `MemoryManager::ReleaseAll(pageTable, num)`
(addrspace.h declares it; its body is not part of the given sources).
Spec 4.3: "For every virtual page 0..numPages-1 of the given page table,
if resident, invalidate and free its Frame Directory Entry; if swapped
out, free its Swap Directory Entry.  Idempotent — pages already
invalid/absent are skipped." -/
def ReleaseAll (m : MemoryManager) (pt : Nat) (num : Nat) :
    MemoryManager :=
  { frameTable := m.frameTable.map (releaseEntry pt num)
    swapTable := m.swapTable.map (releaseEntry pt num) }

/-- A client-visible scheduler operation, for reasoning about arbitrary
interleavings of `ReadyToRun` (MarkReady) and `FindNextToRun`
(SelectNext). -/
inductive SchedOp where
  | markReady (t : Thread)
  | selectNext
  deriving DecidableEq, Repr

/-- Run a sequence of operations from a state, collecting the threads
returned by the `FindNextToRun` calls in order (a NULL return contributes
nothing). -/
def runOps (s : SchedState) : List SchedOp → SchedState × List Thread
  | [] => (s, [])
  | .markReady t :: ops => runOps (ReadyToRun s t) ops
  | .selectNext :: ops =>
    match FindNextToRun s with
    | (none, s1) => runOps s1 ops
    | (some t, s1) =>
      let (s2, out) := runOps s1 ops
      (s2, t :: out)

/-- The threads passed to `ReadyToRun` by a sequence of operations, in
call order. -/
def markedOf (ops : List SchedOp) : List Thread :=
  ops.filterMap (fun op =>
    match op with
    | .markReady t => some t
    | .selectNext => none)

/-- The ready list obtained by marking the given threads ready, in order,
starting from an empty list, under the given policy. -/
def buildReady (ty : SchedulerType) (ts : List Thread) : List Thread :=
  ts.foldl (fun l t => readyAppend ty t l) []

/-- The four threads of Scheduler::SelfTest, testcase 0: names A, B, C, D,
priorities 5, 1, 3, 2, burst times 3, 9, 7, 3 (ids from fork order). -/
def tA : Thread := ⟨0, 5, 3⟩

/-- Thread B of Scheduler::SelfTest, testcase 0. -/
def tB : Thread := ⟨1, 1, 9⟩

/-- Thread C of Scheduler::SelfTest, testcase 0. -/
def tC : Thread := ⟨2, 3, 7⟩

/-- Thread D of Scheduler::SelfTest, testcase 0. -/
def tD : Thread := ⟨3, 2, 3⟩

/-- A freshly constructed scheduler of the given policy (Scheduler
constructor: empty ready list, `toBeDestroyed = NULL`, `current = 0`),
with thread A on the CPU. -/
def baseState (ty : SchedulerType) : SchedState :=
  { schedulerType := ty
    readyList := []
    sleepingList := []
    current := 0
    currentThread := tA
    toBeDestroyed := none
    status := fun _ => .RUNNING }

/-- A state whose deferred-destruction slot is already occupied. -/
def destState : SchedState :=
  { baseState .FCFS with toBeDestroyed := some tA }

/-- An SJF scheduler with thread C running and thread A (shorter burst) at
the head of the ready list. -/
def sjfState : SchedState :=
  { baseState .SJF with currentThread := tC, readyList := [tA] }

/-- A Priority scheduler with thread C running and thread B (smaller
priority value) at the head of the ready list. -/
def prioState : SchedState :=
  { baseState .Priority with currentThread := tC, readyList := [tB] }

/-- A state in which thread B runs and threads A and C sleep, A with wake
tick 0 (already expired at the first tick) and C with wake tick 5. -/
def sleepDemo : SchedState :=
  { baseState .FCFS with
      currentThread := tB
      sleepingList := [(tA, 0), (tC, 5)] }

/-- A memory manager with one valid frame entry and one valid swap entry,
both owned by page table 0 (vpn 0 resident, vpn 1 swapped out). -/
def mmDemo : MemoryManager :=
  { frameTable := [⟨true, false, 0, 0, 1⟩, ⟨false, false, 0, 0, 0⟩]
    swapTable := [⟨true, false, 0, 1, 0⟩] }

/-- The operation sequence used to witness FIFO behaviour: mark A, mark B,
dispatch, mark C, dispatch, dispatch. -/
def fifoOps : List SchedOp :=
  [.markReady tA, .markReady tB, .selectNext, .markReady tC,
   .selectNext, .selectNext]

/-! Theorems. -/

/-- A three-way comparator built from `=` and `>` is antisymmetric:
it is positive on (x, y) exactly when it is negative on (y, x). -/
theorem cmp3_pos_iff_neg (x y : Int) :
    ((if x = y then (0 : Int) else if x > y then 1 else -1) > 0) ↔
    ((if y = x then (0 : Int) else if y > x then 1 else -1) < 0) := by
  split_ifs <;> omega

/-- `SJFCompare` is positive on (a, b) exactly when it is negative on
(b, a). -/
theorem SJFCompare_pos_iff (a b : Thread) :
    SJFCompare a b > 0 ↔ SJFCompare b a < 0 := by
  unfold SJFCompare
  exact cmp3_pos_iff_neg a.burstTime b.burstTime

/-- `PriorityCompare` is positive on (a, b) exactly when it is negative on
(b, a). -/
theorem PriorityCompare_pos_iff (a b : Thread) :
    PriorityCompare a b > 0 ↔ PriorityCompare b a < 0 := by
  unfold PriorityCompare
  exact cmp3_pos_iff_neg a.priority b.priority

/-- C2: `needYield` returns false when the ready queue is empty; under
FCFS it always returns false; under SJF and Priority it returns true
exactly when the ready-queue head sorts strictly before the currently
running thread under the active comparator (comparator negative on
(head, running)). -/
theorem needYield_spec (s : SchedState) :
    (s.readyList = [] → needYield s = false) ∧
    (s.schedulerType = .FCFS → needYield s = false) ∧
    (s.schedulerType = .SJF →
      (needYield s = true ↔
        ∃ h, s.readyList.head? = some h ∧
          SJFCompare h s.currentThread < 0)) ∧
    (s.schedulerType = .Priority →
      (needYield s = true ↔
        ∃ h, s.readyList.head? = some h ∧
          PriorityCompare h s.currentThread < 0)) := by
  refine ⟨?_, ?_, ?_, ?_⟩
  · intro h
    simp [needYield, h]
  · intro h
    unfold needYield
    cases s.readyList.head? <;> simp [h]
  · intro h
    unfold needYield
    cases hl : s.readyList.head? with
    | none => simp
    | some next =>
      simp only [h]
      constructor
      · intro hy
        refine ⟨next, rfl, ?_⟩
        have := (SJFCompare_pos_iff s.currentThread next).mp (by simpa using hy)
        exact this
      · rintro ⟨x, hx, hcmp⟩
        have hx2 : next = x := by
          simpa using hx
        rw [← hx2] at hcmp
        simpa using (SJFCompare_pos_iff s.currentThread next).mpr hcmp
  · intro h
    unfold needYield
    cases hl : s.readyList.head? with
    | none => simp
    | some next =>
      simp only [h]
      constructor
      · intro hy
        refine ⟨next, rfl, ?_⟩
        exact (PriorityCompare_pos_iff s.currentThread next).mp (by simpa using hy)
      · rintro ⟨x, hx, hcmp⟩
        have hx2 : next = x := by
          simpa using hx
        rw [← hx2] at hcmp
        simpa using (PriorityCompare_pos_iff s.currentThread next).mpr hcmp

/-- C2 witness: on a concrete SJF state with a shorter-burst thread at the
ready head, `needYield` is true; on a concrete FCFS state it is false. -/
theorem needYield_spec_witness :
    needYield sjfState = true ∧ needYield (baseState .FCFS) = false :=
  ⟨((needYield_spec sjfState).2.2.1 rfl).mpr ⟨tA, rfl, by decide⟩,
   (needYield_spec (baseState .FCFS)).2.1 rfl⟩

/-- C5: `FallAsleep s t d` records `(t, current + d)` at the back of the
sleep set, sets the status of `t` to BLOCKED (a non-ready state), and
performs no dispatch: the ready list, the current thread, the tick clock
and the destruction slot are all unchanged. -/
theorem fallAsleep_spec (s : SchedState) (t : Thread) (d : Int) :
    (FallAsleep s t d).sleepingList = s.sleepingList ++ [(t, s.current + d)] ∧
    (FallAsleep s t d).status t.id = .BLOCKED ∧
    (FallAsleep s t d).readyList = s.readyList ∧
    (FallAsleep s t d).current = s.current ∧
    (FallAsleep s t d).currentThread = s.currentThread ∧
    (FallAsleep s t d).toBeDestroyed = s.toBeDestroyed :=
  ⟨rfl, by simp [FallAsleep, Thread.Sleep], rfl, rfl, rfl, rfl⟩

/-- C8: `FindNextToRun` returns NULL and leaves the state alone when the
ready list is empty, otherwise removes and returns the head; in both cases
the current-thread reference is untouched. -/
theorem findNextToRun_spec (s : SchedState) :
    (s.readyList = [] → FindNextToRun s = (none, s)) ∧
    (∀ x xs, s.readyList = x :: xs →
      FindNextToRun s = (some x, { s with readyList := xs })) ∧
    (FindNextToRun s).2.currentThread = s.currentThread := by
  refine ⟨?_, ?_, ?_⟩
  · intro h
    simp [FindNextToRun, h]
  · intro x xs h
    simp [FindNextToRun, h]
  · cases h : s.readyList <;> simp [FindNextToRun, h]

/-- C8 witness: on the empty base state `FindNextToRun` returns NULL; on a
state whose ready list is `[tA]` it returns thread A and empties the
list. -/
theorem findNextToRun_spec_witness :
    FindNextToRun (baseState .FCFS) = (none, baseState .FCFS) ∧
    FindNextToRun sjfState = (some tA, { sjfState with readyList := [] }) :=
  ⟨(findNextToRun_spec (baseState .FCFS)).1 rfl,
   (findNextToRun_spec sjfState).2.1 tA [] rfl⟩

/-- The wake scan is a filter: the remaining list keeps exactly the
non-expired entries, and the woken threads are the expired entries in
list order. -/
theorem wakeScan_eq (cur : Int) (l : List ThreadClk) :
    wakeScan cur l =
      (l.filter (fun e => !decide (e.2 < cur)),
       (l.filter (fun e => decide (e.2 < cur))).map Prod.fst) := by
  induction l with
  | nil => rfl
  | cons e rest ih =>
    simp only [wakeScan, ih, List.filter_cons]
    by_cases h : e.2 < cur <;> simp [h]

/-- Folding `ReadyToRun` over a list of threads changes only the ready
list and the status map; the ready list receives the threads by
`readyAppend` in fold order. -/
theorem foldl_ReadyToRun_fields (ts : List Thread) (s : SchedState) :
    (ts.foldl ReadyToRun s).schedulerType = s.schedulerType ∧
    (ts.foldl ReadyToRun s).current = s.current ∧
    (ts.foldl ReadyToRun s).sleepingList = s.sleepingList ∧
    (ts.foldl ReadyToRun s).currentThread = s.currentThread ∧
    (ts.foldl ReadyToRun s).toBeDestroyed = s.toBeDestroyed ∧
    (ts.foldl ReadyToRun s).readyList =
      ts.foldl (fun l t => readyAppend s.schedulerType t l) s.readyList := by
  induction ts generalizing s with
  | nil => exact ⟨rfl, rfl, rfl, rfl, rfl, rfl⟩
  | cons t ts ih =>
    simp only [List.foldl_cons]
    obtain ⟨h1, h2, h3, h4, h5, h6⟩ := ih (ReadyToRun s t)
    exact ⟨h1, h2, h3, h4, h5, h6⟩

/-- A left fold that appends one element at a time is a plain append. -/
theorem foldl_snoc (ts init : List Thread) :
    ts.foldl (fun l t => l ++ [t]) init = init ++ ts := by
  induction ts generalizing init with
  | nil => simp
  | cons t ts ih => simp [List.foldl_cons, ih]

/-- One `WakeUp` call, written as the filter form of the scan: the pair it
returns is determined by the expired prefix filter of the sleep list. -/
theorem wakeUp_eq (s : SchedState) :
    WakeUp s =
      (!((s.sleepingList.filter
            (fun e => decide (e.2 < s.current + 1))).map Prod.fst).isEmpty,
       ((s.sleepingList.filter
            (fun e => decide (e.2 < s.current + 1))).map Prod.fst).foldl
         ReadyToRun
         { s with
             current := s.current + 1
             sleepingList :=
               s.sleepingList.filter
                 (fun e => !decide (e.2 < s.current + 1)) }) := by
  simp only [WakeUp, wakeScan_eq]

/-- C4: every `WakeUp` call increments the tick clock by exactly one,
removes in the same pass every sleep entry with `wakeTick < current`
(none is left behind for a later call), marks each such thread ready via
`ReadyToRun` in scan order, and returns true exactly when at least one
thread was woken. -/
theorem wakeUp_spec (s : SchedState) :
    (WakeUp s).2.current = s.current + 1 ∧
    (WakeUp s).2.sleepingList =
      s.sleepingList.filter (fun e => !decide (e.2 < s.current + 1)) ∧
    (∀ e ∈ (WakeUp s).2.sleepingList, ¬ e.2 < (WakeUp s).2.current) ∧
    (WakeUp s).2 =
      ((s.sleepingList.filter
          (fun e => decide (e.2 < s.current + 1))).map Prod.fst).foldl
        ReadyToRun
        { s with
            current := s.current + 1
            sleepingList :=
              s.sleepingList.filter
                (fun e => !decide (e.2 < s.current + 1)) } ∧
    ((WakeUp s).1 = true ↔ ∃ e ∈ s.sleepingList, e.2 < s.current + 1) := by
  obtain ⟨hty, hcur, hsl, hct, hd, hrl⟩ :=
    foldl_ReadyToRun_fields
      ((s.sleepingList.filter
          (fun e => decide (e.2 < s.current + 1))).map Prod.fst)
      { s with
          current := s.current + 1
          sleepingList :=
            s.sleepingList.filter (fun e => !decide (e.2 < s.current + 1)) }
  refine ⟨?_, ?_, ?_, ?_, ?_⟩
  · rw [wakeUp_eq]
    exact hcur
  · rw [wakeUp_eq]
    exact hsl
  · intro e he
    rw [wakeUp_eq] at he ⊢
    rw [hsl] at he
    rw [hcur]
    have := List.mem_filter.mp he
    simpa using this.2
  · rw [wakeUp_eq]
  · rw [wakeUp_eq]
    constructor
    · intro h1
      rcases hfe : s.sleepingList.filter
          (fun e => decide (e.2 < s.current + 1)) with _ | ⟨e, rest⟩
      · rw [hfe] at h1
        simp at h1
      · have hm : e ∈ s.sleepingList.filter
            (fun x => decide (x.2 < s.current + 1)) := by
          rw [hfe]
          exact List.mem_cons_self e rest
        have := List.mem_filter.mp hm
        exact ⟨e, this.1, by simpa using this.2⟩
    · rintro ⟨e, hmem, hlt⟩
      have hm : e ∈ s.sleepingList.filter
          (fun x => decide (x.2 < s.current + 1)) :=
        List.mem_filter.mpr ⟨hmem, by simpa using hlt⟩
      have hne := List.ne_nil_of_mem hm
      rcases hfe : s.sleepingList.filter
          (fun x => decide (x.2 < s.current + 1)) with _ | ⟨e2, rest⟩
      · exact absurd hfe hne
      · rw [hfe]
        simp

/-- C4 witness: on the concrete state `sleepDemo` (thread A expired),
`WakeUp` advances the clock to 1 and reports a wake-up. -/
theorem wakeUp_spec_witness :
    (WakeUp sleepDemo).2.current = sleepDemo.current + 1 ∧
    (WakeUp sleepDemo).1 = true :=
  ⟨(wakeUp_spec sleepDemo).1,
   ((wakeUp_spec sleepDemo).2.2.2.2).mpr ⟨(tA, 0), by decide, by decide⟩⟩

/-- C10: `FallAsleep` appends its entry at the back of the sleep list, and
the `WakeUp` scan visits the sleep list front to back, so threads whose
wake ticks expire on the same call are marked ready in the order of their
`FallAsleep` calls.  Under FCFS, starting from an empty ready list, the
resulting ready list is exactly the expired threads in sleep-list
order. -/
theorem wakeOrder_spec (s : SchedState) :
    (∀ t d, (FallAsleep s t d).sleepingList =
      s.sleepingList ++ [(t, s.current + d)]) ∧
    (s.schedulerType = .FCFS → s.readyList = [] →
      (WakeUp s).2.readyList =
        (s.sleepingList.filter
          (fun e => decide (e.2 < s.current + 1))).map Prod.fst) := by
  constructor
  · intro t d
    rfl
  · intro hty hrl
    rw [wakeUp_eq]
    obtain ⟨-, -, -, -, -, h6⟩ :=
      foldl_ReadyToRun_fields
        ((s.sleepingList.filter
            (fun e => decide (e.2 < s.current + 1))).map Prod.fst)
        { s with
            current := s.current + 1
            sleepingList :=
              s.sleepingList.filter (fun e => !decide (e.2 < s.current + 1)) }
    rw [h6]
    simp only [hty, hrl, readyAppend]
    exact foldl_snoc _ []

/-- C10 witness: on `sleepDemo`, whose sleep list holds A (expired) before
C (not expired), the ready list after `WakeUp` is exactly the in-order
expired threads. -/
theorem wakeOrder_spec_witness :
    (WakeUp sleepDemo).2.readyList =
      (sleepDemo.sleepingList.filter
        (fun e => decide (e.2 < sleepDemo.current + 1))).map Prod.fst :=
  (wakeOrder_spec sleepDemo).2 rfl rfl

/-- FCFS trace invariant: the threads already dispatched followed by the
residual ready list always equal the initial ready list followed by the
threads marked ready, in order. -/
theorem runOps_fifo_invariant (ops : List SchedOp) (s : SchedState)
    (hty : s.schedulerType = .FCFS) :
    (runOps s ops).2 ++ (runOps s ops).1.readyList =
      s.readyList ++ markedOf ops := by
  induction ops generalizing s with
  | nil => simp [runOps, markedOf]
  | cons op ops ih =>
    cases op with
    | markReady t =>
      simp only [runOps]
      have h := ih (ReadyToRun s t) hty
      rw [h]
      simp [ReadyToRun, hty, readyAppend, markedOf, List.filterMap_cons]
    | selectNext =>
      simp only [runOps]
      cases hl : s.readyList with
      | nil =>
        have hfind : FindNextToRun s = (none, s) := by
          simp [FindNextToRun, hl]
        rw [hfind]
        have h := ih s hty
        rw [h, hl]
        simp [markedOf, List.filterMap_cons]
      | cons x xs =>
        have hfind : FindNextToRun s =
            (some x, { s with readyList := xs }) := by
          simp [FindNextToRun, hl]
        rw [hfind]
        rcases hE : runOps { s with readyList := xs } ops with ⟨s2, out⟩
        have h := ih { s with readyList := xs } hty
        rw [hE] at h
        simp only [hE]
        simp only at h
        simp [markedOf, List.filterMap_cons, h]

/-- C6: under FCFS, for every sequence of MarkReady / SelectNext calls
starting from an empty ready queue, the threads returned by SelectNext
followed by the residual queue are exactly the threads passed to
MarkReady, in call order — the scheduler is a plain FIFO queue. -/
theorem fifo_order (ops : List SchedOp) (s : SchedState)
    (hty : s.schedulerType = .FCFS) (hrl : s.readyList = []) :
    (runOps s ops).2 ++ (runOps s ops).1.readyList = markedOf ops := by
  have h := runOps_fifo_invariant ops s hty
  rw [hrl] at h
  simpa using h

/-- C6 witness: the concrete trace mark A, mark B, dispatch, mark C,
dispatch, dispatch from the fresh FCFS scheduler dispatches A, B, C in
marking order. -/
theorem fifo_order_witness :
    (runOps (baseState .FCFS) fifoOps).2 ++
      (runOps (baseState .FCFS) fifoOps).1.readyList = markedOf fifoOps :=
  fifo_order fifoOps (baseState .FCFS) rfl rfl

/-- Membership in `sortedInsert`: exactly the inserted thread plus the old
elements. -/
theorem mem_sortedInsert (cmp : Thread → Thread → Int) (t a : Thread)
    (l : List Thread) :
    a ∈ sortedInsert cmp t l ↔ a = t ∨ a ∈ l := by
  induction l with
  | nil => simp [sortedInsert]
  | cons x xs ih =>
    simp only [sortedInsert]
    by_cases h : cmp t x < 0
    · simp [h]
    · simp [h, ih]
      tauto

/-- `PriorityCompare` is negative exactly on a strictly smaller priority
value. -/
theorem PriorityCompare_neg_iff (a b : Thread) :
    PriorityCompare a b < 0 ↔ a.priority < b.priority := by
  unfold PriorityCompare
  split_ifs <;> omega

/-- Inserting with `PriorityCompare` preserves ordering by ascending
priority value. -/
theorem sortedInsert_priority_sorted (t : Thread) (l : List Thread)
    (hl : l.Pairwise (fun a b => a.priority ≤ b.priority)) :
    (sortedInsert PriorityCompare t l).Pairwise
      (fun a b => a.priority ≤ b.priority) := by
  induction l with
  | nil => simp [sortedInsert]
  | cons x xs ih =>
    rw [List.pairwise_cons] at hl
    obtain ⟨hx, hxs⟩ := hl
    simp only [sortedInsert]
    by_cases h : PriorityCompare t x < 0
    · simp only [if_pos h]
      have htx : t.priority < x.priority := (PriorityCompare_neg_iff t x).mp h
      refine List.Pairwise.cons ?_ (List.Pairwise.cons hx hxs)
      intro b hb
      rcases List.mem_cons.mp hb with rfl | hb
      · exact le_of_lt htx
      · exact le_of_lt (lt_of_lt_of_le htx (hx b hb))
    · simp only [if_neg h]
      have hxt : x.priority ≤ t.priority := by
        have h2 := (PriorityCompare_neg_iff t x).not.mp h
        omega
      refine List.Pairwise.cons ?_ (ih hxs)
      intro b hb
      rcases (mem_sortedInsert _ _ _ _).mp hb with rfl | hb
      · exact hxt
      · exact hx b hb

/-- Marking any sequence of threads ready under the Priority policy keeps
the ready list ordered by ascending priority value. -/
theorem foldl_readyAppend_priority_sorted (ts : List Thread)
    (acc : List Thread)
    (hacc : acc.Pairwise (fun a b => a.priority ≤ b.priority)) :
    (ts.foldl (fun l t => readyAppend .Priority t l) acc).Pairwise
      (fun a b => a.priority ≤ b.priority) := by
  induction ts generalizing acc with
  | nil => simpa using hacc
  | cons t ts ih =>
    simp only [List.foldl_cons]
    exact ih _ (sortedInsert_priority_sorted t acc hacc)

/-- C7: under the Priority policy the ready queue built by any sequence of
MarkReady calls is ordered by ascending priority value — a position
dispatched earlier never has a larger priority value, so of two ready
threads with distinct priorities the numerically smaller one is dispatched
first (ties keep insertion order by the stable insert) — and for the
SelfTest testcase-0 threads A, B, C, D (priorities 5, 1, 3, 2, forked in
that order) the dispatch order, which is the completion order since no
higher-priority thread arrives afterwards, is B, D, C, A. -/
theorem priority_order :
    (∀ (ts : List Thread) (i j : Fin (buildReady .Priority ts).length),
        i < j →
          ((buildReady .Priority ts).get i).priority ≤
            ((buildReady .Priority ts).get j).priority) ∧
    buildReady .Priority [tA, tB, tC, tD] = [tB, tD, tC, tA] := by
  constructor
  · intro ts i j hij
    exact List.pairwise_iff_get.mp
      (foldl_readyAppend_priority_sorted ts [] List.Pairwise.nil) i j hij
  · decide

/-- C7 witness: in the queue built from A then B under Priority, position
0 (thread B) has a priority value at most that of position 1 (thread
A). -/
theorem priority_order_witness :
    ((buildReady .Priority [tA, tB]).get ⟨0, by decide⟩).priority ≤
      ((buildReady .Priority [tA, tB]).get ⟨1, by decide⟩).priority :=
  priority_order.1 [tA, tB] ⟨0, by decide⟩ ⟨1, by decide⟩ (by decide)

/-- `CheckToBeDestroyed` always leaves the deferred-destruction slot
empty. -/
theorem checkToBeDestroyed_drains (s : SchedState) :
    (CheckToBeDestroyed s).toBeDestroyed = none := by
  cases h : s.toBeDestroyed <;> simp [CheckToBeDestroyed, h]

/-- C3: at most one thread is pending deferred destruction: `Run` with
`finishing = true` while the slot is occupied is the fatal assertion
(modelled as `none`); and whenever `Run` returns normally, the slot has
been drained by `CheckToBeDestroyed` after the switch, so the returned
state has an empty slot. -/
theorem run_destruction_spec (s : SchedState) (next : Thread) :
    (s.toBeDestroyed ≠ none → Run s next true = none) ∧
    (Run s next false).map (fun r => r.toBeDestroyed) = some none ∧
    (s.toBeDestroyed = none →
      (Run s next true).map (fun r => r.toBeDestroyed) = some none) := by
  refine ⟨?_, ?_, ?_⟩
  · intro h
    unfold Run RunBeforeSwitch
    cases hd : s.toBeDestroyed with
    | none => exact absurd hd h
    | some d => simp [hd]
  · unfold Run RunBeforeSwitch RunAfterSwitch
    simp [checkToBeDestroyed_drains]
  · intro h
    unfold Run RunBeforeSwitch RunAfterSwitch
    simp [h, checkToBeDestroyed_drains]

/-- C3 witness: with the slot already holding thread A, `Run` with
`finishing = true` aborts; from the clean base state, `Run` with
`finishing = true` succeeds and returns a state with the slot
drained. -/
theorem run_destruction_spec_witness :
    Run destState tB true = none ∧
    (Run (baseState .FCFS) tB true).map (fun r => r.toBeDestroyed) =
      some none :=
  ⟨(run_destruction_spec destState tB).1 (by simp [destState, baseState]),
   (run_destruction_spec (baseState .FCFS) tB).2.2 rfl⟩

/-- Releasing a directory entry that is constrained to pages below `num`
leaves no valid entry owned by `pt`. -/
theorem releaseEntry_not_pt (pt num : Nat) (e : FrameInfoEntry)
    (he : e.valid = true → e.pageTable = pt → e.vpn < num) :
    (releaseEntry pt num e).valid = true →
    (releaseEntry pt num e).pageTable ≠ pt := by
  unfold releaseEntry
  split
  · intro hv
    simp at hv
  · rename_i hcond
    intro hv hpt
    exact hcond (by simp [hv, hpt, he hv hpt])

/-- C9: if every valid frame or swap directory entry owned by page table
`pt` records a virtual page below `num` (the page count of `pt`), then
after `ReleaseAll pt num` no directory entry refers to `pt` at all, and
the resident-frame and swap-slot lookups a subsequent `AcquirePage pt v`
performs find nothing, for every `v` — no leakage across process
lifetimes. -/
theorem releaseAll_spec (m : MemoryManager) (pt num : Nat)
    (hf : ∀ e ∈ m.frameTable, e.valid = true → e.pageTable = pt →
      e.vpn < num)
    (hs : ∀ e ∈ m.swapTable, e.valid = true → e.pageTable = pt →
      e.vpn < num) :
    (∀ e ∈ (ReleaseAll m pt num).frameTable,
       e.valid = true → e.pageTable ≠ pt) ∧
    (∀ e ∈ (ReleaseAll m pt num).swapTable,
       e.valid = true → e.pageTable ≠ pt) ∧
    (∀ v, findFrameEntry (ReleaseAll m pt num) pt v = none ∧
          findSwapEntry (ReleaseAll m pt num) pt v = none) := by
  have hfm : ∀ e ∈ (ReleaseAll m pt num).frameTable,
      e.valid = true → e.pageTable ≠ pt := by
    intro e hemem
    simp only [ReleaseAll, List.mem_map] at hemem
    obtain ⟨e0, h0mem, rfl⟩ := hemem
    exact releaseEntry_not_pt pt num e0 (hf e0 h0mem)
  have hsm : ∀ e ∈ (ReleaseAll m pt num).swapTable,
      e.valid = true → e.pageTable ≠ pt := by
    intro e hemem
    simp only [ReleaseAll, List.mem_map] at hemem
    obtain ⟨e0, h0mem, rfl⟩ := hemem
    exact releaseEntry_not_pt pt num e0 (hs e0 h0mem)
  refine ⟨hfm, hsm, ?_⟩
  intro v
  constructor
  · unfold findFrameEntry
    rw [List.find?_eq_none]
    intro e hemem hp
    unfold FrameInfoEntry.holds at hp
    simp only [Bool.and_eq_true, decide_eq_true_eq] at hp
    exact hfm e hemem hp.1.1 hp.1.2
  · unfold findSwapEntry
    rw [List.find?_eq_none]
    intro e hemem hp
    unfold FrameInfoEntry.holds at hp
    simp only [Bool.and_eq_true, decide_eq_true_eq] at hp
    exact hsm e hemem hp.1.1 hp.1.2

/-- C9 witness: on the concrete two-frame, one-swap-slot manager owned by
page table 0 with 2 pages, after `ReleaseAll` the lookups for both pages
find nothing. -/
theorem releaseAll_spec_witness :
    findFrameEntry (ReleaseAll mmDemo 0 2) 0 0 = none ∧
    findSwapEntry (ReleaseAll mmDemo 0 2) 0 1 = none :=
  ⟨((releaseAll_spec mmDemo 0 2 (by decide) (by decide)).2.2 0).1,
   ((releaseAll_spec mmDemo 0 2 (by decide) (by decide)).2.2 1).2⟩

/-- The ready list after one `WakeUp`: the expired threads are appended
under the active policy, in scan order, to the previous ready list. -/
theorem wakeUp_readyList (s : SchedState) :
    (WakeUp s).2.readyList =
      ((s.sleepingList.filter
          (fun e => decide (e.2 < s.current + 1))).map Prod.fst).foldl
        (fun l t => readyAppend s.schedulerType t l) s.readyList := by
  rw [wakeUp_eq]
  obtain ⟨-, -, -, -, -, h6⟩ :=
    foldl_ReadyToRun_fields
      ((s.sleepingList.filter
          (fun e => decide (e.2 < s.current + 1))).map Prod.fst)
      { s with
          current := s.current + 1
          sleepingList :=
            s.sleepingList.filter (fun e => !decide (e.2 < s.current + 1)) }
  rw [h6]

/-- Iterating `WakeUp` peels calls from either end. -/
theorem wakeUpN_succ (n : Nat) (s : SchedState) :
    wakeUpN (n + 1) s = (WakeUp (wakeUpN n s)).2 := by
  induction n generalizing s with
  | zero => rfl
  | succ n ih =>
    have h1 : wakeUpN (n + 1 + 1) s = wakeUpN (n + 1) (WakeUp s).2 := rfl
    rw [h1, ih]
    have h2 : wakeUpN (n + 1) s = wakeUpN n (WakeUp s).2 := rfl
    rw [h2]

/-- While a lone sleeper has not yet expired, iterated `WakeUp` calls only
advance the clock: the ready list stays empty and the entry stays put. -/
theorem wakeUpN_dormant (k : Nat) (s : SchedState) (t : Thread) (w : Int)
    (hrl : s.readyList = []) (hsl : s.sleepingList = [(t, w)])
    (hk : s.current + k ≤ w) :
    (wakeUpN k s).readyList = [] ∧
    (wakeUpN k s).sleepingList = [(t, w)] ∧
    (wakeUpN k s).current = s.current + k ∧
    (wakeUpN k s).schedulerType = s.schedulerType := by
  induction k generalizing s with
  | zero => exact ⟨hrl, hsl, by simp [wakeUpN], rfl⟩
  | succ k ih =>
    have hnl : ¬ (w < s.current + 1) := by omega
    have hdf : decide (w < s.current + 1) = false := by
      simpa using hnl
    have hW2 : (WakeUp s).2 =
        { s with current := s.current + 1, sleepingList := [(t, w)] } := by
      rw [wakeUp_eq]
      simp [hsl, hdf]
    have hstep : wakeUpN (k + 1) s = wakeUpN k (WakeUp s).2 := rfl
    rw [hstep, hW2]
    obtain ⟨h1, h2, h3, h4⟩ := ih
      { s with current := s.current + 1, sleepingList := [(t, w)] }
      hrl rfl (by simp; omega)
    refine ⟨h1, h2, ?_, h4⟩
    rw [h3]
    simp
    omega

/-- Marking a thread ready in an empty queue yields the singleton queue
under every policy. -/
theorem readyAppend_nil (ty : SchedulerType) (t : Thread) :
    readyAppend ty t [] = [t] := by
  cases ty <;> rfl

/-- C1 counterexample to the claimed wake timing: with duration 1, after
exactly 1 subsequent `WakeUp` call thread A has not been moved to the
ready queue (its entry is still in the sleep set), and it is moved on the
2nd call — the claim that the d-th call wakes it fails at d = 1. -/
theorem sleep_wake_counterexample :
    tA ∉ (wakeUpN 1 (FallAsleep ⟨.FCFS, [], [], 0, tB, none,
        fun _ => ThreadStatus.RUNNING⟩ tA 1)).readyList ∧
    (tA, 1) ∈ (wakeUpN 1 (FallAsleep ⟨.FCFS, [], [], 0, tB, none,
        fun _ => ThreadStatus.RUNNING⟩ tA 1)).sleepingList ∧
    tA ∈ (wakeUpN 2 (FallAsleep ⟨.FCFS, [], [], 0, tB, none,
        fun _ => ThreadStatus.RUNNING⟩ tA 1)).readyList := by
  decide

/-- C1 amended: after `FallAsleep t d` at tick `c` (wake tick `c + d`),
thread `t` stays off the ready queue through the first `d` subsequent
`WakeUp` calls and is moved to the ready queue on exactly the (d+1)-th
call: it becomes eligible to run strictly after the recorded wake tick,
not at it. -/
theorem sleep_wake_amended (ty : SchedulerType) (c : Int) (r t : Thread)
    (st : Nat → ThreadStatus) (d k : Nat) :
    (k ≤ d →
      (wakeUpN k (FallAsleep ⟨ty, [], [], c, r, none, st⟩ t d)).readyList
          = [] ∧
      (wakeUpN k (FallAsleep ⟨ty, [], [], c, r, none, st⟩ t d)).sleepingList
          = [(t, c + d)]) ∧
    (wakeUpN (d + 1)
        (FallAsleep ⟨ty, [], [], c, r, none, st⟩ t d)).readyList = [t] := by
  have hsl1 : (FallAsleep ⟨ty, [], [], c, r, none, st⟩ t d).sleepingList
      = [(t, c + d)] := rfl
  have hrl1 : (FallAsleep ⟨ty, [], [], c, r, none, st⟩ t d).readyList
      = [] := rfl
  have hcur1 : (FallAsleep ⟨ty, [], [], c, r, none, st⟩ t d).current
      = c := rfl
  constructor
  · intro hkd
    obtain ⟨h1, h2, -, -⟩ :=
      wakeUpN_dormant k (FallAsleep ⟨ty, [], [], c, r, none, st⟩ t d)
        t (c + d) hrl1 hsl1 (by rw [hcur1]; omega)
    exact ⟨h1, h2⟩
  · obtain ⟨h1, h2, h3, h4⟩ :=
      wakeUpN_dormant d (FallAsleep ⟨ty, [], [], c, r, none, st⟩ t d)
        t (c + d) hrl1 hsl1 (by rw [hcur1])
    rw [wakeUpN_succ, wakeUp_readyList, h1, h2, h3, h4, hcur1]
    have hlt : ((c + (d : Int)) < c + d + 1) := by omega
    have hty2 : (FallAsleep ⟨ty, [], [], c, r, none, st⟩ t d).schedulerType
        = ty := rfl
    rw [hty2]
    simp [hlt, readyAppend_nil]

/-- C1 amended witness: for duration 1 from tick 0, after 1 call thread A
is still off the ready queue, and after 2 calls the ready queue is exactly
A. -/
theorem sleep_wake_amended_witness :
    (wakeUpN 1 (FallAsleep ⟨.FCFS, [], [], 0, tB, none,
        fun _ => ThreadStatus.RUNNING⟩ tA 1)).readyList = [] ∧
    (wakeUpN 2 (FallAsleep ⟨.FCFS, [], [], 0, tB, none,
        fun _ => ThreadStatus.RUNNING⟩ tA 1)).readyList = [tA] :=
  ⟨((sleep_wake_amended .FCFS 0 tB tA (fun _ => .RUNNING) 1 1).1
      (by decide)).1,
   (sleep_wake_amended .FCFS 0 tB tA (fun _ => .RUNNING) 1 1).2⟩

end Nachos
